import Mathlib

/-!
Verification of the wiring-simulator core (`src/pages/M3`):
the spatial hash grid (`utils/spatialHash.ts`), the wire-drawing state
machine (`hooks/useWireDrawing.ts`) and the connection-rule validator
(`hooks/useConnectionRules.ts`).

Numbers are modelled as exact rationals.  A JavaScript `Map` is modelled
as an association list with the same observable behaviour: `set` replaces
the value of an existing key in place (keeping insertion order) and
appends fresh keys at the end; `delete` removes the unique entry of the
key; iteration follows insertion order.  The grid cell key string
`"cellX,cellY"` is modelled as the pair `(cellX, cellY) : Int × Int`
(the string encoding of such a pair is injective).
-/

namespace School

/-- JS `Map.get`: value of the first (with unique keys: the only) entry. -/
def mapFind {K V : Type} [DecidableEq K] : List (K × V) → K → Option V
  | [], _ => none
  | (k, v) :: rest, k0 => if k = k0 then some v else mapFind rest k0

/-- JS `Map.set`: replace the entry of the key in place, or append it. -/
def mapSet {K V : Type} [DecidableEq K] : List (K × V) → K → V → List (K × V)
  | [], k0, v0 => [(k0, v0)]
  | (k, v) :: rest, k0, v0 =>
    if k = k0 then (k0, v0) :: rest else (k, v) :: mapSet rest k0 v0

/-- JS `Map.delete`: remove the entry of the key. -/
def mapDelete {K V : Type} [DecidableEq K] : List (K × V) → K → List (K × V)
  | [], _ => []
  | (k, v) :: rest, k0 => if k = k0 then rest else (k, v) :: mapDelete rest k0

/-- 2D point (`Point` in `spatialHash.ts`). -/
structure Point where
  x : ℚ
  y : ℚ
  deriving DecidableEq, Repr

/-- An indexable object (`SpatialObject` in `spatialHash.ts`).  The grid is
generic over `T extends SpatialObject` but only ever reads `id` and
`position`, so we instantiate it at the base interface. -/
structure SpatialObject where
  id : String
  position : Point
  deriving DecidableEq, Repr

/-- State of a `SpatialHashGrid`: the private fields `cellSize`, `grid`
(cell key → objects in the cell) and `objectToCell` (object id → cell key). -/
structure SpatialHashGrid where
  cellSize : ℚ
  grid : List ((Int × Int) × List SpatialObject)
  objectToCell : List (String × (Int × Int))
  deriving DecidableEq, Repr

/-- A freshly constructed grid (`new SpatialHashGrid(cellSize)`). -/
def SpatialHashGrid.mk' (cellSize : ℚ) : SpatialHashGrid :=
  { cellSize := cellSize, grid := [], objectToCell := [] }

/-- `getCellKey`: `(Math.floor(x / cellSize), Math.floor(y / cellSize))`. -/
def getCellKey (cellSize x y : ℚ) : Int × Int :=
  (⌊x / cellSize⌋, ⌊y / cellSize⌋)

/-- The integers from `a` to `b` inclusive (the index range of a JS
`for (let i = a; i <= b; i++)` loop; empty when `b < a`). -/
def intRange (a b : Int) : List Int :=
  (List.range (b + 1 - a).toNat).map (fun (i : Nat) => a + (i : Int))

/-- `getNearbyCellKeys`: all cell keys within `ceil(radius / cellSize)`
cells of the query cell in both axes, in the source's `dy`-outer /
`dx`-inner push order. -/
def getNearbyCellKeys (cellSize x y radius : ℚ) : List (Int × Int) :=
  let cellX := ⌊x / cellSize⌋
  let cellY := ⌊y / cellSize⌋
  let cellRadius := ⌈radius / cellSize⌉
  (intRange (-cellRadius) cellRadius).flatMap (fun dy =>
    (intRange (-cellRadius) cellRadius).map (fun dx => (cellX + dx, cellY + dy)))

/-- Squared distance from `p` to `(x, y)`, as computed inside `query` /
`findNearest` (`dx*dx + dy*dy`). -/
def distSq (p : Point) (x y : ℚ) : ℚ :=
  (p.x - x) * (p.x - x) + (p.y - y) * (p.y - y)

/-- `SpatialHashGrid.remove(id)`. -/
def SpatialHashGrid.remove (s : SpatialHashGrid) (id : String) : SpatialHashGrid :=
  match mapFind s.objectToCell id with
  | none => s
  | some cellKey =>
    let grid' :=
      match mapFind s.grid cellKey with
      | none => s.grid
      | some cell =>
        let cell' := cell.eraseP (fun o => o.id == id)
        if cell' = [] then mapDelete s.grid cellKey else mapSet s.grid cellKey cell'
    { s with grid := grid', objectToCell := mapDelete s.objectToCell id }

/-- `SpatialHashGrid.insert(obj)`: remove a previous entry of the same id,
then push the object onto its cell's array and record its cell. -/
def SpatialHashGrid.insert (s : SpatialHashGrid) (obj : SpatialObject) : SpatialHashGrid :=
  let s := if (mapFind s.objectToCell obj.id).isSome then s.remove obj.id else s
  let key := getCellKey s.cellSize obj.position.x obj.position.y
  let cell := (mapFind s.grid key).getD []
  { s with
    grid := mapSet s.grid key (cell ++ [obj]),
    objectToCell := mapSet s.objectToCell obj.id key }

/-- `SpatialHashGrid.query(x, y, radius)`: iterate the nearby cells,
keeping the objects whose squared distance is at most `radius²`. -/
def SpatialHashGrid.query (s : SpatialHashGrid) (x y radius : ℚ) : List SpatialObject :=
  (getNearbyCellKeys s.cellSize x y radius).flatMap (fun key =>
    ((mapFind s.grid key).getD []).filter (fun o =>
      decide (distSq o.position x y ≤ radius * radius)))

/-- `Number.MAX_VALUE` = (2 − 2⁻⁵²) · 2¹⁰²³ = 2¹⁰²⁴ − 2⁹⁷¹, the initial
value of `minDistanceSquared` in `findNearest` (stated over `ℕ` so that
concrete states evaluate without deep recursion). -/
def numberMaxValue : ℚ := ((2 ^ 1024 - 2 ^ 971 : ℕ) : ℚ)

/-- The loop body of `findNearest`: keep the candidate if its squared
distance strictly improves on the minimum so far. -/
def nearestStep (x y : ℚ) (acc : SpatialObject × ℚ) (obj : SpatialObject) :
    SpatialObject × ℚ :=
  let d := distSq obj.position x y
  if d < acc.2 then (obj, d) else acc

/-- `SpatialHashGrid.findNearest(x, y, radius)`: query, then scan the
candidates keeping the strictly closest so far, starting from
`nearest = candidates[0]`, `minDistanceSquared = Number.MAX_VALUE`. -/
def SpatialHashGrid.findNearest (s : SpatialHashGrid) (x y radius : ℚ) :
    Option SpatialObject :=
  match s.query x y radius with
  | [] => none
  | first :: _ =>
    some (((s.query x y radius).foldl (nearestStep x y) (first, numberMaxValue)).1)

/-- `SpatialHashGrid.update(obj)`: no-op when the cell is unchanged,
otherwise remove + insert. -/
def SpatialHashGrid.update (s : SpatialHashGrid) (obj : SpatialObject) : SpatialHashGrid :=
  let oldCellKey := mapFind s.objectToCell obj.id
  let newCellKey := getCellKey s.cellSize obj.position.x obj.position.y
  if oldCellKey = some newCellKey then s
  else (s.remove obj.id).insert obj

/-- `SpatialHashGrid.clear()`. -/
def SpatialHashGrid.clear (s : SpatialHashGrid) : SpatialHashGrid :=
  { s with grid := [], objectToCell := [] }

/-- `SpatialHashGrid.insertBatch(objects)`. -/
def SpatialHashGrid.insertBatch (s : SpatialHashGrid) (objects : List SpatialObject) :
    SpatialHashGrid :=
  objects.foldl SpatialHashGrid.insert s

/-- `SpatialHashGrid.size`: the number of indexed objects
(`objectToCell.size`). -/
def SpatialHashGrid.size (s : SpatialHashGrid) : Nat :=
  s.objectToCell.length

/-- All objects currently stored in the grid cells. -/
def SpatialHashGrid.allObjects (s : SpatialHashGrid) : List SpatialObject :=
  s.grid.flatMap (fun kc => kc.2)

/-- The brute-force reference scan the spec compares `query` against:
filter every indexed object by squared distance ≤ radius². -/
def bruteForceQuery (objs : List SpatialObject) (x y radius : ℚ) : List SpatialObject :=
  objs.filter (fun o => decide (distSq o.position x y ≤ radius * radius))

/-! ### Wire drawing (`hooks/useWireDrawing.ts`) -/

/-- `TerminalType` = `'source' | 'input' | 'output'`. -/
inductive TerminalType where
  | source
  | input
  | output
  deriving DecidableEq, Repr

/-- `Terminal` (the `visual` styling field is presentational and unused by
the engine). -/
structure Terminal where
  id : String
  label : String
  type : TerminalType
  position : Point
  deriving DecidableEq, Repr

/-- `WireConnection` (the optional presentational fields `style`,
`showArrow`, `showLabel` are never set nor read by the engine or the
validator).  The source field names `from` / `to` are Lean keywords, so
they are embedded as `fromT` / `toT`. -/
structure WireConnection where
  id : String
  fromT : Terminal
  toT : Terminal
  color : String
  deriving DecidableEq, Repr

/-- The four `useState` cells of `useWireDrawing`. -/
structure WireDrawingState where
  connections : List WireConnection
  isDrawing : Bool
  startPoint : Option Terminal
  currentPoint : Option Point
  deriving DecidableEq, Repr

/-- The hook's initial state: no connections, not drawing. -/
def initialWireState : WireDrawingState :=
  { connections := [], isDrawing := false, startPoint := none, currentPoint := none }

/-- `startDrawing(terminal)`: rejects unless the terminal is an `output`
or `source` terminal; on success becomes drawing, anchored at the
terminal. -/
def startDrawing (terminal : Terminal) (s : WireDrawingState) : WireDrawingState :=
  if terminal.type ≠ TerminalType.output ∧ terminal.type ≠ TerminalType.source then s
  else
    { s with
      isDrawing := true,
      startPoint := some terminal,
      currentPoint := some terminal.position }

/-- `updateDrawing(point)`: no-op unless drawing. -/
def updateDrawing (point : Point) (s : WireDrawingState) : WireDrawingState :=
  if s.isDrawing then { s with currentPoint := some point } else s

/-- `completeDrawing(terminal)`.  The fresh wire id
`` `wire-${Date.now()}` `` is modelled by the caller-supplied `newId`
(its value never influences control flow). -/
def completeDrawing (terminal : Terminal) (newId : String) (s : WireDrawingState) :
    WireDrawingState :=
  match s.startPoint, s.isDrawing with
  | none, _ => s
  | some _, false => s
  | some startPoint, true =>
    if terminal.id = startPoint.id then s
    else if terminal.type = startPoint.type then s
    else if startPoint.type = TerminalType.input then s
    else if (s.connections.find? (fun conn =>
        conn.fromT.id == startPoint.id && conn.toT.id == terminal.id)).isSome then s
    else
      let newConnection : WireConnection :=
        { id := newId, fromT := startPoint, toT := terminal, color := "#e74c3c" }
      { s with
        connections := s.connections ++ [newConnection],
        isDrawing := false,
        startPoint := none,
        currentPoint := none }

/-- `cancelDrawing()`. -/
def cancelDrawing (s : WireDrawingState) : WireDrawingState :=
  { s with isDrawing := false, startPoint := none, currentPoint := none }

/-- JS `array.filter((_, i) => i !== index)`: keep every element whose
position differs from `index`. -/
def filterOutIndex (l : List WireConnection) (index : Nat) : List WireConnection :=
  (l.enum.filter (fun p => p.1 != index)).map (fun p => p.2)

/-- `removeConnection(index)`. -/
def removeConnection (index : Nat) (s : WireDrawingState) : WireDrawingState :=
  { s with connections := filterOutIndex s.connections index }

/-- One call into the wire-drawing API. -/
inductive WireOp where
  | start (terminal : Terminal)
  | update (point : Point)
  | complete (terminal : Terminal) (newId : String)
  | cancel
  | removeAt (index : Nat)
  deriving Repr

/-- Apply one API call to the hook state. -/
def applyOp (op : WireOp) (s : WireDrawingState) : WireDrawingState :=
  match op with
  | .start terminal => startDrawing terminal s
  | .update point => updateDrawing point s
  | .complete terminal newId => completeDrawing terminal newId s
  | .cancel => cancelDrawing s
  | .removeAt index => removeConnection index s

/-- Run a sequence of API calls from the initial state. -/
def applyOps (ops : List WireOp) : WireDrawingState :=
  ops.foldl (fun s op => applyOp op s) initialWireState

/-! ### Connection-rule validator (`hooks/useConnectionRules.ts`) -/

/-- An entry of `WiringRule.connections` (`{from, to, type}`; `from` / `to`
are Lean keywords, embedded as `fromId` / `toId`; `type` is
`'required' | 'optional'` and is never read by the validator). -/
structure RuleConnection where
  fromId : String
  toId : String
  type : String
  deriving DecidableEq, Repr

/-- An entry of `WiringRule.forbidden` (`{from, to, reason}`). -/
structure ForbiddenConnection where
  fromId : String
  toId : String
  reason : String
  deriving DecidableEq, Repr

/-- `WiringRule`.  The `feedback` record is flattened into three string
fields (its `partial` member name is a Lean keyword); none of the
flattened fields is read by the validator. -/
structure WiringRule where
  id : String
  name : String
  description : String
  type : String
  required : Bool
  connections : List RuleConnection
  forbidden : List ForbiddenConnection
  feedbackSuccess : String
  feedbackPartial : String
  feedbackError : String
  deriving DecidableEq, Repr

/-- An entry of the validator's `errors` array. -/
structure ValidationError where
  message : String
  suggestion : String
  deriving DecidableEq, Repr

/-- The memoised validation report of `useConnectionRules`.  A warning
record `{message}` has its message fully determined by the offending
`from.id`, so `warnings` stores that id. -/
structure ValidationResult where
  isValid : Bool
  errors : List ValidationError
  warnings : List String
  completedRules : List WiringRule
  progress : Int
  deriving DecidableEq, Repr

/-- The `hasAllRequired` check of one rule: every entry of the rule's
`connections` list has a matching connection (exact from-id/to-id). -/
def hasAllRequired (connections : List WireConnection) (rule : WiringRule) : Bool :=
  rule.connections.all (fun req =>
    connections.any (fun conn => conn.fromT.id == req.fromId && conn.toT.id == req.toId))

/-- One step of building the `outputTerminals` map: push the target id
onto the (possibly fresh) entry of the origin id. -/
def outStep (m : List (String × List String)) (conn : WireConnection) :
    List (String × List String) :=
  mapSet m conn.fromT.id (((mapFind m conn.fromT.id).getD []) ++ [conn.toT.id])

/-- The `outputTerminals` map: `from.id` → list of `to.id`s, built in
connection order. -/
def outputTerminals (connections : List WireConnection) : List (String × List String) :=
  connections.foldl outStep []

/-- `Math.round` on exact rationals: `⌊q + 1/2⌋` (the half-up rounding JS
uses). -/
def jsRound (q : ℚ) : Int := ⌊q + 1 / 2⌋

/-- The validator body (the `useMemo` of `useConnectionRules`). -/
def validate (connections : List WireConnection) (rules : List WiringRule) :
    ValidationResult :=
  let completedRules := rules.filter (fun rule => hasAllRequired connections rule)
  let errors := rules.flatMap (fun rule =>
    (rule.forbidden.filter (fun f =>
      connections.any (fun conn => conn.fromT.id == f.fromId && conn.toT.id == f.toId))).map
      (fun f =>
        { message := "禁止连接：" ++ f.fromId ++ " → " ++ f.toId,
          suggestion := f.reason }))
  let warnings := ((outputTerminals connections).filter
    (fun e => decide (1 < e.2.length))).map (fun e => e.1)
  let progress : Int :=
    if 0 < rules.length then
      jsRound (((completedRules.length : ℚ) / (rules.length : ℚ)) * 100)
    else 0
  let isValid := decide (completedRules.length = rules.length) && decide (errors.length = 0)
  { isValid := isValid, errors := errors, warnings := warnings,
    completedRules := completedRules, progress := progress }

/- Mathlib seals the core rational arithmetic operations; re-open them so
that concrete states evaluate by `decide`. -/
unseal Rat.mul Rat.add Rat.sub Rat.inv

/-! ### Association-list (JS `Map`) lemmas -/

theorem mapFind_some_mem {K V : Type} [DecidableEq K] {m : List (K × V)} {k : K} {v : V}
    (h : mapFind m k = some v) : (k, v) ∈ m := by
  induction m with
  | nil => simp [mapFind] at h
  | cons kv rest ih =>
    obtain ⟨k', v'⟩ := kv
    by_cases hk : k' = k
    · subst hk
      simp [mapFind] at h
      simp [h]
    · simp only [mapFind, if_neg hk] at h
      exact List.mem_cons_of_mem _ (ih h)

theorem mapFind_of_mem {K V : Type} [DecidableEq K] {m : List (K × V)}
    (hnd : (m.map Prod.fst).Nodup) {k : K} {v : V} (h : (k, v) ∈ m) :
    mapFind m k = some v := by
  induction m with
  | nil => simp at h
  | cons kv rest ih =>
    obtain ⟨k', v'⟩ := kv
    rw [List.map_cons, List.nodup_cons] at hnd
    rcases List.mem_cons.mp h with heq | hmem
    · rw [Prod.mk.injEq] at heq
      simp [mapFind, heq.1.symm, heq.2]
    · by_cases hk : k' = k
      · exfalso
        apply hnd.1
        rw [hk]
        exact List.mem_map.mpr ⟨(k, v), hmem, rfl⟩
      · simp only [mapFind, if_neg hk]
        exact ih hnd.2 hmem

theorem mapFind_eq_none {K V : Type} [DecidableEq K] {m : List (K × V)} {k : K} :
    mapFind m k = none ↔ k ∉ m.map Prod.fst := by
  induction m with
  | nil => simp [mapFind]
  | cons kv rest ih =>
    obtain ⟨k', v'⟩ := kv
    by_cases hk : k' = k
    · simp [mapFind, hk]
    · simp [mapFind, hk, ih, Ne.symm hk]

theorem mapSet_of_not_mem {K V : Type} [DecidableEq K] {m : List (K × V)} {k : K} (v : V)
    (h : k ∉ m.map Prod.fst) : mapSet m k v = m ++ [(k, v)] := by
  induction m with
  | nil => simp [mapSet]
  | cons kv rest ih =>
    obtain ⟨k', v'⟩ := kv
    simp only [List.map_cons, List.mem_cons] at h
    push_neg at h
    simp [mapSet, Ne.symm h.1, ih h.2]

theorem mapSet_self {K V : Type} [DecidableEq K] {m : List (K × V)} {k : K} {v : V}
    (h : mapFind m k = some v) : mapSet m k v = m := by
  induction m with
  | nil => simp [mapFind] at h
  | cons kv rest ih =>
    obtain ⟨k', v'⟩ := kv
    by_cases hk : k' = k
    · subst hk
      simp [mapFind] at h
      simp [mapSet, h]
    · simp only [mapFind, if_neg hk] at h
      simp [mapSet, hk, ih h]

theorem mapSet_mapSet {K V : Type} [DecidableEq K] {m : List (K × V)} {k : K} {v w : V} :
    mapSet (mapSet m k v) k w = mapSet m k w := by
  induction m with
  | nil => simp [mapSet]
  | cons kv rest ih =>
    obtain ⟨k', v'⟩ := kv
    by_cases hk : k' = k
    · simp [mapSet, hk]
    · simp [mapSet, hk, ih]

theorem mapFind_mapSet_self {K V : Type} [DecidableEq K] {m : List (K × V)} {k : K} {v : V} :
    mapFind (mapSet m k v) k = some v := by
  induction m with
  | nil => simp [mapSet, mapFind]
  | cons kv rest ih =>
    obtain ⟨k', v'⟩ := kv
    by_cases hk : k' = k
    · simp [mapSet, mapFind, hk]
    · simp [mapSet, mapFind, hk, ih]

theorem mapDelete_append_of_not_mem {K V : Type} [DecidableEq K] {m : List (K × V)}
    {k : K} (v : V) (h : k ∉ m.map Prod.fst) : mapDelete (m ++ [(k, v)]) k = m := by
  induction m with
  | nil => simp [mapDelete]
  | cons kv rest ih =>
    obtain ⟨k', v'⟩ := kv
    simp only [List.map_cons, List.mem_cons] at h
    push_neg at h
    simp [mapDelete, Ne.symm h.1, ih h.2]

theorem mapFind_append_self {K V : Type} [DecidableEq K] {m : List (K × V)} {k : K}
    (v : V) (h : k ∉ m.map Prod.fst) : mapFind (m ++ [(k, v)]) k = some v := by
  induction m with
  | nil => simp [mapFind]
  | cons kv rest ih =>
    obtain ⟨k', v'⟩ := kv
    simp only [List.map_cons, List.mem_cons] at h
    push_neg at h
    simp only [List.cons_append, mapFind, if_neg (Ne.symm h.1)]
    exact ih h.2

/-! ### Cell-neighbourhood geometry -/

theorem mem_intRange {a b z : Int} : z ∈ intRange a b ↔ a ≤ z ∧ z ≤ b := by
  unfold intRange
  rw [List.mem_map]
  constructor
  · rintro ⟨i, hi, rfl⟩
    rw [List.mem_range] at hi
    omega
  · rintro ⟨h1, h2⟩
    refine ⟨(z - a).toNat, ?_, ?_⟩
    · rw [List.mem_range]
      omega
    · omega

theorem mem_getNearbyCellKeys {cs x y r : ℚ} {k : Int × Int} :
    k ∈ getNearbyCellKeys cs x y r ↔
      |k.1 - ⌊x / cs⌋| ≤ ⌈r / cs⌉ ∧ |k.2 - ⌊y / cs⌋| ≤ ⌈r / cs⌉ := by
  obtain ⟨k1, k2⟩ := k
  simp only [getNearbyCellKeys, List.mem_flatMap, List.mem_map, mem_intRange,
    Prod.mk.injEq, abs_le]
  constructor
  · rintro ⟨dy, hdy, dx, hdx, h1, h2⟩
    omega
  · rintro ⟨h1, h2⟩
    exact ⟨k2 - ⌊y / cs⌋, by omega, k1 - ⌊x / cs⌋, by omega, by omega, by omega⟩

theorem floor_dist_le {cs r px x : ℚ} (hcs : 0 < cs) (h : |px - x| ≤ r) :
    |⌊px / cs⌋ - ⌊x / cs⌋| ≤ ⌈r / cs⌉ := by
  rw [abs_le] at h
  have hub : px / cs ≤ x / cs + (⌈r / cs⌉ : ℚ) := by
    have h2 : px / cs ≤ (x + r) / cs := by
      rw [div_le_div_iff_of_pos_right hcs]
      linarith [h.2]
    have h3 : r / cs ≤ (⌈r / cs⌉ : ℚ) := Int.le_ceil _
    rw [add_div] at h2
    linarith
  have hlb : x / cs - (⌈r / cs⌉ : ℚ) ≤ px / cs := by
    have h2 : (x - r) / cs ≤ px / cs := by
      rw [div_le_div_iff_of_pos_right hcs]
      linarith [h.1]
    have h3 : r / cs ≤ (⌈r / cs⌉ : ℚ) := Int.le_ceil _
    rw [sub_div] at h2
    linarith
  have hu : ⌊px / cs⌋ ≤ ⌊x / cs + (⌈r / cs⌉ : ℚ)⌋ := Int.floor_le_floor hub
  have hl : ⌊x / cs - (⌈r / cs⌉ : ℚ)⌋ ≤ ⌊px / cs⌋ := Int.floor_le_floor hlb
  rw [Int.floor_add_int] at hu
  rw [Int.floor_sub_int] at hl
  rw [abs_le]
  omega

theorem abs_le_of_mul_self_le {a r : ℚ} (hr : 0 ≤ r) (h : a * a ≤ r * r) : |a| ≤ r := by
  rw [abs_le]
  constructor <;> nlinarith

theorem distSq_components_le {p : Point} {x y r : ℚ} (hr : 0 ≤ r)
    (h : distSq p x y ≤ r * r) : |p.x - x| ≤ r ∧ |p.y - y| ≤ r := by
  unfold distSq at h
  constructor
  · exact abs_le_of_mul_self_le hr (by nlinarith [mul_self_nonneg (p.y - y)])
  · exact abs_le_of_mul_self_le hr (by nlinarith [mul_self_nonneg (p.x - x)])

/-! ### Grid well-formedness and query correctness -/

/-- The representation invariant of a `SpatialHashGrid` (maintained by
`insert` / `remove` / `update` / `clear` from a fresh grid): cell keys and
object ids are unique, no cell is empty, every stored object sits in the
cell of its position and is recorded in `objectToCell`, and every
`objectToCell` entry points at a cell holding an object of that id. -/
def WF (s : SpatialHashGrid) : Prop :=
  (s.grid.map Prod.fst).Nodup ∧
  (s.objectToCell.map Prod.fst).Nodup ∧
  (∀ kc ∈ s.grid, kc.2 ≠ []) ∧
  (∀ kc ∈ s.grid, ∀ o ∈ kc.2,
    getCellKey s.cellSize o.position.x o.position.y = kc.1) ∧
  (∀ kc ∈ s.grid, ∀ o ∈ kc.2, mapFind s.objectToCell o.id = some kc.1) ∧
  (∀ ik ∈ s.objectToCell, ∃ kc ∈ s.grid, kc.1 = ik.2 ∧ ∃ o ∈ kc.2, o.id = ik.1)

instance : DecidablePred WF := fun s => by
  unfold WF
  infer_instance

/-- Membership in a `query` result over a well-formed grid is exactly
membership among the indexed objects plus the squared-distance filter. -/
theorem mem_query_iff {s : SpatialHashGrid} (hwf : WF s) (hcs : 0 < s.cellSize)
    {x y r : ℚ} (hr : 0 ≤ r) {o : SpatialObject} :
    o ∈ s.query x y r ↔ o ∈ s.allObjects ∧ distSq o.position x y ≤ r * r := by
  obtain ⟨hnd, -, -, hkey, hid, -⟩ := hwf
  constructor
  · intro ho
    rw [SpatialHashGrid.query, List.mem_flatMap] at ho
    obtain ⟨key, hkmem, ho⟩ := ho
    rw [List.mem_filter, decide_eq_true_eq] at ho
    obtain ⟨hocell, hdist⟩ := ho
    cases hfind : mapFind s.grid key with
    | none =>
      rw [hfind] at hocell
      simp at hocell
    | some cell =>
      rw [hfind] at hocell
      simp only [Option.getD_some] at hocell
      refine ⟨?_, hdist⟩
      rw [SpatialHashGrid.allObjects, List.mem_flatMap]
      exact ⟨(key, cell), mapFind_some_mem hfind, hocell⟩
  · rintro ⟨hall, hdist⟩
    rw [SpatialHashGrid.allObjects, List.mem_flatMap] at hall
    obtain ⟨kc, hkc, ho⟩ := hall
    have hk := hkey kc hkc o ho
    have hfind : mapFind s.grid kc.1 = some kc.2 := by
      apply mapFind_of_mem hnd
      exact hkc
    rw [SpatialHashGrid.query, List.mem_flatMap]
    refine ⟨kc.1, ?_, ?_⟩
    · rw [mem_getNearbyCellKeys]
      obtain ⟨hx, hy⟩ := distSq_components_le hr hdist
      rw [← hk]
      exact ⟨floor_dist_le hcs hx, floor_dist_le hcs hy⟩
    · rw [hfind, Option.getD_some, List.mem_filter, decide_eq_true_eq]
      exact ⟨ho, hdist⟩

/-- C1.  Over any well-formed grid with positive cell size and any radius
`r ≥ 0`, `query` returns exactly the id set of the brute-force
squared-distance filter over all indexed objects; and any other
well-formed grid (of any positive cell size) holding the same objects
yields the same id set. -/
theorem query_id_set_eq_bruteForce (s : SpatialHashGrid) (x y r : ℚ)
    (hwf : WF s) (hcs : 0 < s.cellSize) (hr : 0 ≤ r) (i : String) :
    ((∃ o ∈ s.query x y r, o.id = i) ↔
      ∃ o ∈ bruteForceQuery s.allObjects x y r, o.id = i) ∧
    (∀ s2 : SpatialHashGrid, WF s2 → 0 < s2.cellSize →
      s2.allObjects = s.allObjects →
      ((∃ o ∈ s2.query x y r, o.id = i) ↔ ∃ o ∈ s.query x y r, o.id = i)) := by
  have hmain : ∀ s' : SpatialHashGrid, WF s' → 0 < s'.cellSize →
      ((∃ o ∈ s'.query x y r, o.id = i) ↔
        ∃ o ∈ bruteForceQuery s'.allObjects x y r, o.id = i) := by
    intro s' hwf' hcs'
    constructor
    · rintro ⟨o, ho, rfl⟩
      rw [mem_query_iff hwf' hcs' hr] at ho
      refine ⟨o, ?_, rfl⟩
      rw [bruteForceQuery, List.mem_filter, decide_eq_true_eq]
      exact ho
    · rintro ⟨o, ho, rfl⟩
      rw [bruteForceQuery, List.mem_filter, decide_eq_true_eq] at ho
      refine ⟨o, ?_, rfl⟩
      rw [mem_query_iff hwf' hcs' hr]
      exact ho
  refine ⟨hmain s hwf hcs, ?_⟩
  intro s2 hwf2 hcs2 hsame
  rw [hmain s hwf hcs, hmain s2 hwf2 hcs2, hsame]

/-- A small concrete grid used to witness the hypotheses of the grid
theorems: two objects indexed with the default cell size 50. -/
def witnessGrid : SpatialHashGrid :=
  ((SpatialHashGrid.mk' 50).insert { id := "a", position := { x := 10, y := 10 } }).insert
    { id := "b", position := { x := 120, y := 10 } }

/-- Inserting an object whose id is not indexed and then removing that id
restores the exact pre-insert state of a well-formed grid. -/
theorem insert_remove_eq (s : SpatialHashGrid) (obj : SpatialObject)
    (hwf : WF s) (hnew : mapFind s.objectToCell obj.id = none) :
    (s.insert obj).remove obj.id = s := by
  obtain ⟨-, -, hne, -, hid, -⟩ := hwf
  have hnotmem : obj.id ∉ s.objectToCell.map Prod.fst := mapFind_eq_none.mp hnew
  set key := getCellKey s.cellSize obj.position.x obj.position.y with hkeydef
  cases hcell : mapFind s.grid key with
  | none =>
    have hknot : key ∉ s.grid.map Prod.fst := mapFind_eq_none.mp hcell
    have herase : List.eraseP (fun o => o.id == obj.id) [obj] = [] := by
      simp [List.eraseP_cons_of_pos]
    rw [SpatialHashGrid.insert]
    simp only [hnew, Option.isSome_none, Bool.false_eq_true, if_false, ← hkeydef, hcell,
      Option.getD_none, List.nil_append]
    rw [mapSet_of_not_mem [obj] hknot, mapSet_of_not_mem key hnotmem]
    rw [SpatialHashGrid.remove]
    simp only [mapFind_append_self key hnotmem, mapFind_append_self [obj] hknot, herase,
      if_pos, mapDelete_append_of_not_mem [obj] hknot, mapDelete_append_of_not_mem key hnotmem]
  | some cell =>
    have hmem : (key, cell) ∈ s.grid := mapFind_some_mem hcell
    have hcellne : cell ≠ [] := hne (key, cell) hmem
    have hnotin : ∀ o ∈ cell, ¬(o.id == obj.id) = true := by
      intro o ho hoid
      rw [beq_iff_eq] at hoid
      have hcontr := hid (key, cell) hmem o ho
      rw [hoid, hnew] at hcontr
      exact Option.noConfusion hcontr
    have herase : (cell ++ [obj]).eraseP (fun o => o.id == obj.id) = cell := by
      rw [List.eraseP_append_right _ hnotin, List.eraseP_cons_of_pos (by simp),
        List.append_nil]
    rw [SpatialHashGrid.insert]
    simp only [hnew, Option.isSome_none, Bool.false_eq_true, if_false, ← hkeydef, hcell,
      Option.getD_some]
    rw [mapSet_of_not_mem key hnotmem]
    rw [SpatialHashGrid.remove]
    simp only [mapFind_append_self key hnotmem, mapFind_mapSet_self, herase,
      if_neg hcellne, mapSet_mapSet, mapSet_self hcell,
      mapDelete_append_of_not_mem key hnotmem]

/-- C7.  On a well-formed grid, for an object whose id is not currently
indexed, `insert(obj)` followed by `remove(obj.id)` restores `size` and
the result of every `query` to their pre-insert values. -/
theorem insert_remove_restores_size_and_queries (s : SpatialHashGrid)
    (obj : SpatialObject) (hwf : WF s)
    (hnew : mapFind s.objectToCell obj.id = none) :
    ((s.insert obj).remove obj.id).size = s.size ∧
    ∀ x y r : ℚ, ((s.insert obj).remove obj.id).query x y r = s.query x y r := by
  rw [insert_remove_eq s obj hwf hnew]
  exact ⟨rfl, fun _ _ _ => rfl⟩

/-- Witness for C7: the restoration theorem applied to the concrete
two-object grid and a fresh third object. -/
theorem insert_remove_restores_witness :
    ((witnessGrid.insert { id := "c", position := { x := 1, y := 2 } }).remove "c").size =
      witnessGrid.size ∧
    ∀ x y r : ℚ,
      ((witnessGrid.insert { id := "c", position := { x := 1, y := 2 } }).remove "c").query
        x y r = witnessGrid.query x y r :=
  insert_remove_restores_size_and_queries witnessGrid
    { id := "c", position := { x := 1, y := 2 } } (by decide) (by decide)

/-- Witness for C1: the theorem applied to a concrete two-object grid, a
concrete query and a concrete id. -/
theorem query_id_set_eq_bruteForce_witness :
    ((∃ o ∈ witnessGrid.query 0 0 200, o.id = "b") ↔
      ∃ o ∈ bruteForceQuery witnessGrid.allObjects 0 0 200, o.id = "b") ∧
    (∀ s2 : SpatialHashGrid, WF s2 → 0 < s2.cellSize →
      s2.allObjects = witnessGrid.allObjects →
      ((∃ o ∈ s2.query 0 0 200, o.id = "b") ↔
        ∃ o ∈ witnessGrid.query 0 0 200, o.id = "b")) :=
  query_id_set_eq_bruteForce witnessGrid 0 0 200 (by decide) (by decide) (by decide) "b"

/-! ### `findNearest` -/

/-- Invariant of the `findNearest` scan: either no candidate beat the
initial minimum (and the accumulator is untouched, with every candidate at
or above that minimum), or the final accumulator holds a scanned candidate
realising a strict improvement that bounds every candidate from below. -/
theorem nearestScan_spec (x y : ℚ) (l : List SpatialObject) (a0 : SpatialObject) (m0 : ℚ) :
    (l.foldl (nearestStep x y) (a0, m0) = (a0, m0) ∧
      ∀ c ∈ l, m0 ≤ distSq c.position x y) ∨
    ((l.foldl (nearestStep x y) (a0, m0)).1 ∈ l ∧
      distSq (l.foldl (nearestStep x y) (a0, m0)).1.position x y =
        (l.foldl (nearestStep x y) (a0, m0)).2 ∧
      (l.foldl (nearestStep x y) (a0, m0)).2 < m0 ∧
      ∀ c ∈ l, (l.foldl (nearestStep x y) (a0, m0)).2 ≤ distSq c.position x y) := by
  induction l generalizing a0 m0 with
  | nil =>
    left
    exact ⟨rfl, by simp⟩
  | cons c l ih =>
    rw [List.foldl_cons]
    by_cases hd : distSq c.position x y < m0
    · rw [show nearestStep x y (a0, m0) c = (c, distSq c.position x y) by
        simp [nearestStep, hd]]
      rcases ih c (distSq c.position x y) with ⟨heq, hall⟩ | ⟨hmem, hdist, hlt, hall⟩
      · right
        rw [heq]
        refine ⟨List.mem_cons_self c l, rfl, hd, ?_⟩
        intro c' hc'
        rcases List.mem_cons.mp hc' with rfl | h
        · exact le_refl _
        · exact hall c' h
      · right
        refine ⟨List.mem_cons_of_mem c hmem, hdist, lt_trans hlt hd, ?_⟩
        intro c' hc'
        rcases List.mem_cons.mp hc' with rfl | h
        · exact le_of_lt hlt
        · exact hall c' h
    · rw [show nearestStep x y (a0, m0) c = (a0, m0) by simp [nearestStep, hd]]
      rcases ih a0 m0 with ⟨heq, hall⟩ | ⟨hmem, hdist, hlt, hall⟩
      · left
        refine ⟨heq, ?_⟩
        intro c' hc'
        rcases List.mem_cons.mp hc' with rfl | h
        · exact not_lt.mp hd
        · exact hall c' h
      · right
        refine ⟨List.mem_cons_of_mem c hmem, hdist, hlt, ?_⟩
        intro c' hc'
        rcases List.mem_cons.mp hc' with rfl | h
        · exact le_of_lt (lt_of_lt_of_le hlt (not_lt.mp hd))
        · exact hall c' h

/-- C8 (amended).  `findNearest` returns `none` exactly when `query` is
empty; otherwise it returns an element of the query result, and — provided
some candidate has squared distance below `Number.MAX_VALUE`, the scan's
initial minimum — the returned object has minimal squared distance among
the query result. -/
theorem findNearest_spec (s : SpatialHashGrid) (x y r : ℚ) :
    (s.findNearest x y r = none ↔ s.query x y r = []) ∧
    (∀ o, s.findNearest x y r = some o → o ∈ s.query x y r) ∧
    ((∃ c ∈ s.query x y r, distSq c.position x y < numberMaxValue) →
      ∀ o, s.findNearest x y r = some o →
        ∀ c ∈ s.query x y r, distSq o.position x y ≤ distSq c.position x y) := by
  cases hq : s.query x y r with
  | nil =>
    refine ⟨by simp [SpatialHashGrid.findNearest, hq], ?_, ?_⟩
    · intro o ho
      rw [SpatialHashGrid.findNearest, hq] at ho
      exact Option.noConfusion ho
    · intro hex o ho
      rw [SpatialHashGrid.findNearest, hq] at ho
      exact Option.noConfusion ho
  | cons first rest =>
    have hscan := nearestScan_spec x y (first :: rest) first numberMaxValue
    have hfn : s.findNearest x y r =
        some (((first :: rest).foldl (nearestStep x y) (first, numberMaxValue)).1) := by
      rw [SpatialHashGrid.findNearest, hq]
    refine ⟨?_, ?_, ?_⟩
    · rw [hfn]
      simp
    · intro o ho
      rw [hfn, Option.some.injEq] at ho
      rcases hscan with ⟨heq, -⟩ | ⟨hmem, -, -, -⟩
      · rw [heq] at ho
        rw [← ho]
        exact List.mem_cons_self first rest
      · rw [← ho]
        exact hmem
    · rintro ⟨c0, hc0, hc0lt⟩ o ho c hc
      rw [hfn, Option.some.injEq] at ho
      rcases hscan with ⟨-, hall⟩ | ⟨-, hdist, -, hall⟩
      · exact absurd hc0lt (not_lt.mpr (hall c0 hc0))
      · rw [← ho, hdist]
        exact hall c hc

set_option maxRecDepth 8000 in
/-- Witness for C8: on the concrete two-object grid, `findNearest`
returns the unique in-range object, and the minimality clause of the
theorem applies since that object is nearer than `Number.MAX_VALUE`. -/
theorem findNearest_spec_witness :
    witnessGrid.findNearest 0 0 20 = some { id := "a", position := { x := 10, y := 10 } } ∧
    ∀ c ∈ witnessGrid.query 0 0 20,
      distSq (Point.mk 10 10) 0 0 ≤ distSq c.position 0 0 := by
  constructor
  · decide
  · exact (findNearest_spec witnessGrid 0 0 20).2.2
      ⟨{ id := "a", position := { x := 10, y := 10 } }, by decide, by decide⟩
      { id := "a", position := { x := 10, y := 10 } } (by decide)

/-- A grid holding two objects so distant that both their squared
distances to the origin exceed `Number.MAX_VALUE`; the listed cell size
keeps the scanned neighbourhood small. -/
def hugeGrid : SpatialHashGrid :=
  (SpatialHashGrid.mk' ((2 ^ 520 : ℕ) : ℚ)).insertBatch
    [{ id := "far",
       position := { x := -((2 ^ 520 : ℕ) : ℚ), y := -((2 ^ 520 : ℕ) : ℚ) } },
     { id := "near", position := { x := ((2 ^ 513 : ℕ) : ℚ), y := 0 } }]

set_option maxRecDepth 8000 in
/-- Counterexample to C8 as stated: on `hugeGrid`, `findNearest` returns
the object `far` even though the candidate `near` of the same query is
strictly closer — the `Number.MAX_VALUE` initialisation never updates when
every candidate is at least that far away, so `candidates[0]` wins. -/
theorem findNearest_not_minimal :
    hugeGrid.findNearest 0 0 ((2 ^ 521 : ℕ) : ℚ) =
      some { id := "far",
             position := { x := -((2 ^ 520 : ℕ) : ℚ), y := -((2 ^ 520 : ℕ) : ℚ) } } ∧
    ∃ o ∈ hugeGrid.query 0 0 ((2 ^ 521 : ℕ) : ℚ),
      distSq o.position 0 0 <
        distSq (Point.mk (-((2 ^ 520 : ℕ) : ℚ)) (-((2 ^ 520 : ℕ) : ℚ))) 0 0 := by
  constructor
  · decide
  · exact ⟨{ id := "near", position := { x := ((2 ^ 513 : ℕ) : ℚ), y := 0 } },
      by decide, by decide⟩

/-! ### Wire-drawing state machine theorems -/

/-- The `Idle` state of the drawing protocol: not drawing, no anchor, no
cursor. -/
def IsIdle (s : WireDrawingState) : Prop :=
  s.isDrawing = false ∧ s.startPoint = none ∧ s.currentPoint = none

/-- Terminals used by concrete witnesses (the spec's example scenario). -/
def tL1 : Terminal :=
  { id := "L1", label := "L1", type := TerminalType.source, position := { x := 0, y := 0 } }

def tQF1in : Terminal :=
  { id := "QF1-in", label := "QF1-in", type := TerminalType.input,
    position := { x := 10, y := 0 } }

def tQF1out : Terminal :=
  { id := "QF1-out", label := "QF1-out", type := TerminalType.output,
    position := { x := 20, y := 0 } }

def tM1in : Terminal :=
  { id := "M1-in", label := "M1-in", type := TerminalType.input,
    position := { x := 30, y := 0 } }

/-- C6.  `startDrawing` on an `input` terminal changes nothing (in
particular from `Idle` it stays `Idle` with no connection created), while
from `Idle` on a `source` or `output` terminal it transitions to drawing
anchored at that terminal with the cursor on its position. -/
theorem startDrawing_spec (s : WireDrawingState) (terminal : Terminal) :
    (terminal.type = TerminalType.input →
      startDrawing terminal s = s ∧ (IsIdle s → IsIdle (startDrawing terminal s))) ∧
    (IsIdle s → terminal.type = TerminalType.source ∨ terminal.type = TerminalType.output →
      startDrawing terminal s =
        { connections := s.connections, isDrawing := true,
          startPoint := some terminal, currentPoint := some terminal.position }) := by
  constructor
  · intro htype
    have hsame : startDrawing terminal s = s := by
      rw [startDrawing, if_pos]
      rw [htype]
      exact ⟨fun h => TerminalType.noConfusion h, fun h => TerminalType.noConfusion h⟩
    refine ⟨hsame, ?_⟩
    intro hidle
    rw [hsame]
    exact hidle
  · intro hidle htype
    rw [startDrawing, if_neg]
    rcases htype with h | h <;> rw [h] <;> rintro ⟨h1, h2⟩
    · exact h2 rfl
    · exact h1 rfl

/-- Witness for C6: from the initial (idle) state, `startDrawing` on the
input terminal is a no-op and on the source terminal starts a drawing. -/
theorem startDrawing_spec_witness :
    startDrawing tQF1in initialWireState = initialWireState ∧
    IsIdle (startDrawing tQF1in initialWireState) ∧
    startDrawing tL1 initialWireState =
      { connections := [], isDrawing := true,
        startPoint := some tL1, currentPoint := some tL1.position } :=
  ⟨((startDrawing_spec initialWireState tQF1in).1 rfl).1,
   ((startDrawing_spec initialWireState tQF1in).1 rfl).2 ⟨rfl, rfl, rfl⟩,
   (startDrawing_spec initialWireState tL1).2 ⟨rfl, rfl, rfl⟩ (Or.inl rfl)⟩

/-- C9.  `cancelDrawing` always lands in `Idle` with the connection list
untouched, and is the identity on a state that is already `Idle`. -/
theorem cancelDrawing_spec (s : WireDrawingState) :
    (cancelDrawing s).connections = s.connections ∧
    IsIdle (cancelDrawing s) ∧
    (IsIdle s → cancelDrawing s = s) := by
  refine ⟨rfl, ⟨rfl, rfl, rfl⟩, ?_⟩
  rintro ⟨h1, h2, h3⟩
  obtain ⟨conns, d, sp, cp⟩ := s
  simp only at h1 h2 h3
  rw [cancelDrawing, h1, h2, h3]

/-- Witness for C9: `cancelDrawing` on the initial idle state is the
identity (and its other conclusions hold there too). -/
theorem cancelDrawing_spec_witness :
    (cancelDrawing initialWireState).connections = initialWireState.connections ∧
    IsIdle (cancelDrawing initialWireState) ∧
    cancelDrawing initialWireState = initialWireState := by
  obtain ⟨h1, h2, h3⟩ := cancelDrawing_spec initialWireState
  exact ⟨h1, h2, h3 ⟨rfl, rfl, rfl⟩⟩

/-- C2.  In the `Drawing` state, a `completeDrawing` attempt that fails
any validation check (same terminal, same type, input anchor, or existing
(anchor, target) connection) leaves the whole state unchanged — same
connections, still drawing with the same anchor and cursor; and for a
valid (anchor, target) pair, completing, restarting from the same anchor
and completing again adds exactly one connection with that pair. -/
theorem completeDrawing_spec (s : WireDrawingState) (anchor terminal : Terminal)
    (hd : s.isDrawing = true) (ha : s.startPoint = some anchor) :
    ((terminal.id = anchor.id ∨ terminal.type = anchor.type ∨
        anchor.type = TerminalType.input ∨
        ∃ c ∈ s.connections, c.fromT.id = anchor.id ∧ c.toT.id = terminal.id) →
      ∀ newId, completeDrawing terminal newId s = s) ∧
    (terminal.id ≠ anchor.id → terminal.type ≠ anchor.type →
      anchor.type ≠ TerminalType.input →
      (¬∃ c ∈ s.connections, c.fromT.id = anchor.id ∧ c.toT.id = terminal.id) →
      ∀ newId1 newId2,
        (completeDrawing terminal newId2
            (startDrawing anchor
              (completeDrawing terminal newId1 s))).connections.countP
            (fun c => c.fromT.id == anchor.id && c.toT.id == terminal.id) =
          s.connections.countP
            (fun c => c.fromT.id == anchor.id && c.toT.id == terminal.id) + 1) := by
  constructor
  · intro hdisj newId
    rw [completeDrawing, ha, hd]
    simp only []
    split_ifs with h1 h2 h3 h4
    · rfl
    · rfl
    · rfl
    · rfl
    · exfalso
      rcases hdisj with h | h | h | h
      · exact h1 h
      · exact h2 h
      · exact h3 h
      · apply h4
        rw [List.find?_isSome]
        obtain ⟨c, hc, hc1, hc2⟩ := h
        exact ⟨c, hc, by simp [hc1, hc2]⟩
  · intro hid htype hanchor hnodup newId1 newId2
    have hfound : s.connections.find?
        (fun conn => conn.fromT.id == anchor.id && conn.toT.id == terminal.id) = none := by
      rw [List.find?_eq_none]
      intro c hc
      simp only [Bool.and_eq_true, beq_iff_eq, not_and]
      intro h1 h2
      exact hnodup ⟨c, hc, h1, h2⟩
    have hs1 : completeDrawing terminal newId1 s =
        { connections := s.connections ++
            [{ id := newId1, fromT := anchor, toT := terminal, color := "#e74c3c" }],
          isDrawing := false, startPoint := none, currentPoint := none } := by
      rw [completeDrawing, ha, hd]
      simp only []
      rw [if_neg hid, if_neg htype, if_neg hanchor, hfound]
      rfl
    have hstart : anchor.type = TerminalType.output ∨ anchor.type = TerminalType.source := by
      cases htt : anchor.type
      · exact Or.inr rfl
      · exact absurd htt hanchor
      · exact Or.inl rfl
    set newConn : WireConnection :=
      { id := newId1, fromT := anchor, toT := terminal, color := "#e74c3c" } with hnewConn
    have hs2 : startDrawing anchor (completeDrawing terminal newId1 s) =
        { connections := s.connections ++ [newConn], isDrawing := true,
          startPoint := some anchor, currentPoint := some anchor.position } := by
      rw [hs1, startDrawing, if_neg]
      rintro ⟨hno, hns⟩
      rcases hstart with h | h
      · exact hno h
      · exact hns h
    have hs3 : (completeDrawing terminal newId2
        (startDrawing anchor (completeDrawing terminal newId1 s))).connections =
        s.connections ++ [newConn] := by
      rw [hs2, completeDrawing]
      simp only
      rw [if_neg hid, if_neg htype, if_neg hanchor]
      have hfind2 : ((s.connections ++ [newConn]).find?
          (fun conn => conn.fromT.id == anchor.id && conn.toT.id == terminal.id)).isSome =
          true := by
        rw [List.find?_isSome]
        exact ⟨newConn, List.mem_append_right _ (List.mem_singleton_self _), by simp⟩
      rw [if_pos hfind2]
    rw [hs3, List.countP_append]
    simp

/-- State used by the C2 witness: mid-drawing, anchored at the source
terminal, with no connections yet. -/
def drawingFromL1 : WireDrawingState :=
  { connections := [], isDrawing := true,
    startPoint := some tL1, currentPoint := some tL1.position }

/-- Witness for C2: completing onto the anchor itself is rejected without
any state change, and completing twice onto the input terminal (restarting
in between) yields exactly one (L1, QF1-in) connection. -/
theorem completeDrawing_spec_witness :
    completeDrawing tL1 "wire-1" drawingFromL1 = drawingFromL1 ∧
    (completeDrawing tQF1in "wire-2"
        (startDrawing tL1
          (completeDrawing tQF1in "wire-1" drawingFromL1))).connections.countP
        (fun c => c.fromT.id == tL1.id && c.toT.id == tQF1in.id) =
      drawingFromL1.connections.countP
        (fun c => c.fromT.id == tL1.id && c.toT.id == tQF1in.id) + 1 :=
  ⟨(completeDrawing_spec drawingFromL1 tL1 tL1 rfl rfl).1 (Or.inl rfl) "wire-1",
   (completeDrawing_spec drawingFromL1 tL1 tQF1in rfl rfl).2 (by decide) (by decide)
     (by decide) (by decide) "wire-1" "wire-2"⟩

/-- The connection-list invariant of the claim: no self-connection, every
origin is a `source` or `output` terminal, every target differs in type
from its origin, and no duplicated (from.id, to.id) pair. -/
def ConnListOK (conns : List WireConnection) : Prop :=
  (∀ c ∈ conns, c.fromT.id ≠ c.toT.id ∧
    (c.fromT.type = TerminalType.source ∨ c.fromT.type = TerminalType.output) ∧
    c.toT.type ≠ c.fromT.type) ∧
  conns.Pairwise (fun c1 c2 => ¬(c1.fromT.id = c2.fromT.id ∧ c1.toT.id = c2.toT.id))

theorem startDrawing_connections (terminal : Terminal) (s : WireDrawingState) :
    (startDrawing terminal s).connections = s.connections := by
  rw [startDrawing]
  split
  · rfl
  · rfl

theorem updateDrawing_connections (point : Point) (s : WireDrawingState) :
    (updateDrawing point s).connections = s.connections := by
  rw [updateDrawing]
  split
  · rfl
  · rfl

theorem filterOutIndex_sublist_aux (l : List WireConnection) (n i : Nat) :
    List.Sublist (((List.enumFrom n l).filter (fun p => p.1 != i)).map (fun p => p.2)) l := by
  induction l generalizing n with
  | nil => simp
  | cons a l ih =>
    rw [List.enumFrom_cons, List.filter_cons]
    by_cases h : ((n, a).1 != i) = true
    · rw [if_pos h, List.map_cons]
      exact List.Sublist.cons₂ a (ih (n + 1))
    · rw [if_neg h]
      exact List.Sublist.cons a (ih (n + 1))

theorem filterOutIndex_sublist (l : List WireConnection) (i : Nat) :
    List.Sublist (filterOutIndex l i) l :=
  filterOutIndex_sublist_aux l 0 i

theorem completeDrawing_preserves (terminal : Terminal) (newId : String)
    (s : WireDrawingState) (h : ConnListOK s.connections) :
    ConnListOK (completeDrawing terminal newId s).connections := by
  rw [completeDrawing]
  cases hsp : s.startPoint with
  | none => exact h
  | some anchor =>
    cases hdr : s.isDrawing with
    | false => exact h
    | true =>
      simp only []
      split_ifs with h1 h2 h3 h4
      · exact h
      · exact h
      · exact h
      · exact h
      · obtain ⟨hall, hpair⟩ := h
        constructor
        · intro c hc
          rcases List.mem_append.mp hc with hmem | hmem
          · exact hall c hmem
          · rw [List.mem_singleton] at hmem
            subst hmem
            refine ⟨fun heq => h1 heq.symm, ?_, h2⟩
            cases htt : anchor.type
            · exact Or.inl rfl
            · exact absurd htt h3
            · exact Or.inr rfl
        · rw [List.pairwise_append]
          refine ⟨hpair, List.pairwise_singleton _ _, ?_⟩
          intro c1 hc1 c2 hc2
          rw [List.mem_singleton] at hc2
          subst hc2
          rintro ⟨hfrom, hto⟩
          simp only at hfrom hto
          exact h4 (List.find?_isSome.mpr ⟨c1, hc1, by simp [hfrom, hto]⟩)

theorem removeConnection_preserves (index : Nat) (s : WireDrawingState)
    (h : ConnListOK s.connections) :
    ConnListOK (removeConnection index s).connections := by
  obtain ⟨hall, hpair⟩ := h
  have hsub : List.Sublist (removeConnection index s).connections s.connections :=
    filterOutIndex_sublist s.connections index
  exact ⟨fun c hc => hall c (hsub.subset hc), hpair.sublist hsub⟩

/-- Every single wire-drawing API call preserves the connection-list
invariant. -/
theorem applyOp_preserves (op : WireOp) (s : WireDrawingState)
    (h : ConnListOK s.connections) : ConnListOK (applyOp op s).connections := by
  cases op with
  | start terminal => rw [applyOp, startDrawing_connections]; exact h
  | update point => rw [applyOp, updateDrawing_connections]; exact h
  | complete terminal newId => exact completeDrawing_preserves terminal newId s h
  | cancel => exact h
  | removeAt index => exact removeConnection_preserves index s h

/-- C3.  Starting from the empty session, every sequence of wire-drawing
operations keeps the connection-list invariant: no connection is a
self-connection, every origin is a `source` or `output` terminal, every
target's type differs from its origin's, and no (from.id, to.id) pair is
duplicated. -/
theorem wire_ops_preserve_invariant (ops : List WireOp) :
    ConnListOK (applyOps ops).connections := by
  rw [applyOps]
  have hgen : ∀ s : WireDrawingState, ConnListOK s.connections →
      ConnListOK (ops.foldl (fun s op => applyOp op s) s).connections := by
    induction ops with
    | nil => exact fun s hs => hs
    | cons op ops ih =>
      intro s hs
      exact ih (applyOp op s) (applyOp_preserves op s hs)
  exact hgen initialWireState ⟨fun c hc => absurd hc (List.not_mem_nil c), List.Pairwise.nil⟩

/-! ### Connection-rule validator theorems -/

/-- C10.  With an empty rule list the report is vacuously valid for every
connection list: `isValid = true`, no errors, no completed rules, and
`progress = 0` (the explicit empty-rules branch of the progress
computation). -/
theorem validate_no_rules (connections : List WireConnection) :
    (validate connections []).isValid = true ∧
    (validate connections []).errors = [] ∧
    (validate connections []).completedRules = [] ∧
    (validate connections []).progress = 0 :=
  ⟨rfl, rfl, rfl, rfl⟩

/-- A rule whose required-connections list is empty (and which forbids
nothing): it is vacuously completed by any connection list. -/
def emptyRule : WiringRule :=
  { id := "rule-empty", name := "", description := "", type := "custom",
    required := true, connections := [], forbidden := [],
    feedbackSuccess := "", feedbackPartial := "", feedbackError := "" }

/-- Counterexample to C4 as stated: a nonempty rule list (one rule with an
empty required-connections list) against the empty connection list yields
`isValid = true` and `progress = 100`, not `false` and `0` — the rule is
vacuously completed. -/
theorem validate_empty_connections_cx :
    (validate [] [emptyRule]).isValid = true ∧
    (validate [] [emptyRule]).progress = 100 := by
  constructor
  · rfl
  · decide

/-- Unfolding lemma: the `completedRules` component of the report. -/
theorem validate_completedRules (connections : List WireConnection)
    (rules : List WiringRule) :
    (validate connections rules).completedRules =
      rules.filter (fun rule => hasAllRequired connections rule) := rfl

/-- Unfolding lemma: the `isValid` component of the report. -/
theorem validate_isValid (connections : List WireConnection) (rules : List WiringRule) :
    (validate connections rules).isValid =
      (decide ((validate connections rules).completedRules.length = rules.length) &&
        decide ((validate connections rules).errors.length = 0)) := rfl

/-- Unfolding lemma: the `progress` component of the report. -/
theorem validate_progress (connections : List WireConnection) (rules : List WiringRule) :
    (validate connections rules).progress =
      if 0 < rules.length then
        jsRound ((((validate connections rules).completedRules.length : ℚ) /
          (rules.length : ℚ)) * 100)
      else 0 := rfl

/-- Unfolding lemma: the `warnings` component of the report. -/
theorem validate_warnings (connections : List WireConnection) (rules : List WiringRule) :
    (validate connections rules).warnings =
      ((outputTerminals connections).filter (fun e => decide (1 < e.2.length))).map
        (fun e => e.1) := rfl

/-- C4 (amended).  For a nonempty rule list in which every rule has a
nonempty required-connections list, the empty connection list yields
`isValid = false` and `progress = 0`. -/
theorem validate_empty_connections (rules : List WiringRule)
    (hne : rules ≠ []) (hreq : ∀ r ∈ rules, r.connections ≠ []) :
    (validate [] rules).isValid = false ∧ (validate [] rules).progress = 0 := by
  have hcomp : rules.filter (fun rule => hasAllRequired [] rule) = [] := by
    rw [List.filter_eq_nil_iff]
    intro r hr
    obtain ⟨req, hreqmem⟩ : ∃ x, x ∈ r.connections := by
      cases hc : r.connections with
      | nil => exact absurd hc (hreq r hr)
      | cons a l => exact ⟨a, List.mem_cons_self a l⟩
    rw [hasAllRequired, Bool.not_eq_true, List.all_eq_false]
    exact ⟨req, hreqmem, by simp⟩
  have hlen : rules.length ≠ 0 := fun h0 => hne (List.length_eq_zero.mp h0)
  constructor
  · rw [validate_isValid, validate_completedRules, hcomp]
    simp only [List.length_nil, Bool.and_eq_false_iff, decide_eq_false_iff_not]
    exact Or.inl fun h => hlen h.symm
  · rw [validate_progress, validate_completedRules, hcomp]
    rw [if_pos (Nat.pos_of_ne_zero hlen)]
    rw [jsRound]
    norm_num [Int.floor_eq_iff]

/-- A rule requiring the single connection L1 → QF1-in. -/
def seqRule : WiringRule :=
  { id := "rule-1", name := "r", description := "", type := "sequence",
    required := true,
    connections := [{ fromId := "L1", toId := "QF1-in", type := "required" }],
    forbidden := [],
    feedbackSuccess := "", feedbackPartial := "", feedbackError := "" }

/-- Witness for C4 (amended): one rule with one required connection and no
connections drawn. -/
theorem validate_empty_connections_witness :
    (validate [] [seqRule]).isValid = false ∧ (validate [] [seqRule]).progress = 0 :=
  validate_empty_connections [seqRule] (by decide) (by decide)

theorem mapFind_mapSet_ne {K V : Type} [DecidableEq K] {m : List (K × V)} {k0 k : K}
    {v : V} (h : k0 ≠ k) : mapFind (mapSet m k0 v) k = mapFind m k := by
  induction m with
  | nil => simp [mapSet, mapFind, h]
  | cons kv rest ih =>
    obtain ⟨k', v'⟩ := kv
    by_cases hk : k' = k0
    · subst hk
      simp [mapSet, mapFind, h]
    · by_cases hk2 : k' = k
      · subst hk2
        simp [mapSet, mapFind, hk]
      · simp [mapSet, mapFind, hk, hk2, ih]

theorem mapSet_map_fst {K V : Type} [DecidableEq K] {m : List (K × V)} {k : K} {v : V} :
    (mapSet m k v).map Prod.fst =
      if k ∈ m.map Prod.fst then m.map Prod.fst else m.map Prod.fst ++ [k] := by
  induction m with
  | nil => simp [mapSet]
  | cons kv rest ih =>
    obtain ⟨k', v'⟩ := kv
    by_cases hk : k' = k
    · subst hk
      simp [mapSet]
    · rw [show mapSet ((k', v') :: rest) k v = (k', v') :: mapSet rest k v by
        simp [mapSet, hk]]
      by_cases hmem : k ∈ rest.map Prod.fst
      · simp [ih, hmem, Ne.symm hk]
      · simp [ih, hmem, Ne.symm hk]

theorem mapSet_keys_nodup {K V : Type} [DecidableEq K] {m : List (K × V)} {k : K} {v : V}
    (h : (m.map Prod.fst).Nodup) : ((mapSet m k v).map Prod.fst).Nodup := by
  rw [mapSet_map_fst]
  by_cases hmem : k ∈ m.map Prod.fst
  · rw [if_pos hmem]
    exact h
  · rw [if_neg hmem]
    rw [List.nodup_append]
    exact ⟨h, List.nodup_singleton k, by simpa [List.disjoint_singleton] using hmem⟩

/-- The list of target ids of the connections originating at `k`, in
connection order. -/
def targetsOf (k : String) (conns : List WireConnection) : List String :=
  (conns.filter (fun c => c.fromT.id == k)).map (fun c => c.toT.id)

theorem outputTerminals_loop (conns : List WireConnection)
    (m : List (String × List String)) (k : String) :
    mapFind (conns.foldl outStep m) k =
      match mapFind m k with
      | some ts => some (ts ++ targetsOf k conns)
      | none => if targetsOf k conns = [] then none else some (targetsOf k conns) := by
  induction conns generalizing m with
  | nil =>
    rw [List.foldl_nil]
    cases mapFind m k with
    | none => simp [targetsOf]
    | some ts => simp [targetsOf]
  | cons c conns ih =>
    rw [List.foldl_cons, ih (outStep m c)]
    by_cases hck : c.fromT.id = k
    · have h1 : mapFind (outStep m c) k =
          some ((mapFind m k).getD [] ++ [c.toT.id]) := by
        rw [outStep, hck]
        exact mapFind_mapSet_self
      have h2 : targetsOf k (c :: conns) = c.toT.id :: targetsOf k conns := by
        rw [targetsOf, List.filter_cons, if_pos (by simp [hck]), List.map_cons]
        rfl
      rw [h1, h2]
      cases hm : mapFind m k with
      | none => simp
      | some ts => simp
    · have h1 : mapFind (outStep m c) k = mapFind m k := by
        rw [outStep]
        exact mapFind_mapSet_ne hck
      have h2 : targetsOf k (c :: conns) = targetsOf k conns := by
        rw [targetsOf, List.filter_cons, if_neg (by simp [hck])]
        rfl
      rw [h1, h2]

/-- The entry of `k` in the `outputTerminals` map is exactly the list of
targets of `k`, present exactly when `k` originates some connection. -/
theorem outputTerminals_find (conns : List WireConnection) (k : String) :
    mapFind (outputTerminals conns) k =
      if targetsOf k conns = [] then none else some (targetsOf k conns) := by
  rw [outputTerminals, outputTerminals_loop conns [] k]
  rfl

theorem outputTerminals_keys_nodup (conns : List WireConnection) :
    ((outputTerminals conns).map Prod.fst).Nodup := by
  rw [outputTerminals]
  have hgen : ∀ m : List (String × List String), (m.map Prod.fst).Nodup →
      ((conns.foldl outStep m).map Prod.fst).Nodup := by
    induction conns with
    | nil => exact fun m hm => hm
    | cons c conns ih =>
      intro m hm
      rw [List.foldl_cons]
      exact ih (outStep m c) (mapSet_keys_nodup hm)
  exact hgen [] List.nodup_nil

/-- C5 (amended).  The report contains a short-circuit warning for a given
`from.id` exactly when that id originates at least two connections
(counting duplicated (from, to) pairs, as the code counts pushes, not
distinct targets), with exactly one warning per offending id; in
particular two connections sharing a `from.id` produce exactly the one
warning for that id. -/
theorem shortCircuit_warnings_spec (conns : List WireConnection)
    (rules : List WiringRule) (k : String) :
    (k ∈ (validate conns rules).warnings ↔
      2 ≤ conns.countP (fun c => c.fromT.id == k)) ∧
    (validate conns rules).warnings.Nodup ∧
    (∀ c1 c2 : WireConnection, c1.fromT.id = c2.fromT.id → c1.toT.id ≠ c2.toT.id →
      (validate [c1, c2] rules).warnings = [c1.fromT.id]) := by
  refine ⟨?_, ?_, ?_⟩
  · rw [validate_warnings, List.mem_map]
    constructor
    · rintro ⟨e, he, rfl⟩
      rw [List.mem_filter, decide_eq_true_eq] at he
      obtain ⟨hmem, hlen⟩ := he
      have hfind : mapFind (outputTerminals conns) e.1 = some e.2 := by
        apply mapFind_of_mem (outputTerminals_keys_nodup conns)
        exact hmem
      rw [outputTerminals_find] at hfind
      by_cases ht : targetsOf e.1 conns = []
      · rw [if_pos ht] at hfind
        exact Option.noConfusion hfind
      · rw [if_neg ht, Option.some.injEq] at hfind
        rw [← hfind] at hlen
        rw [targetsOf, List.length_map, ← List.countP_eq_length_filter] at hlen
        omega
    · intro hcount
      have hlen : 1 < (targetsOf k conns).length := by
        rw [targetsOf, List.length_map, ← List.countP_eq_length_filter]
        omega
      have hne : targetsOf k conns ≠ [] := by
        intro h0
        rw [h0] at hlen
        simp at hlen
      have hfind : mapFind (outputTerminals conns) k = some (targetsOf k conns) := by
        rw [outputTerminals_find, if_neg hne]
      exact ⟨(k, targetsOf k conns),
        List.mem_filter.mpr ⟨mapFind_some_mem hfind, by simpa using hlen⟩, rfl⟩
  · rw [validate_warnings]
    have hsub : List.Sublist
        (((outputTerminals conns).filter (fun e => decide (1 < e.2.length))).map
          (fun e => e.1))
        ((outputTerminals conns).map (fun e => e.1)) :=
      (List.filter_sublist _).map _
    exact ((outputTerminals_keys_nodup conns).sublist hsub)
  · intro c1 c2 hfrom hto
    rw [validate_warnings]
    have hout : outputTerminals [c1, c2] = [(c2.fromT.id, [c1.toT.id, c2.toT.id])] := by
      rw [outputTerminals, List.foldl_cons, List.foldl_cons, List.foldl_nil]
      rw [show outStep [] c1 = [(c1.fromT.id, [c1.toT.id])] by rfl]
      rw [outStep, hfrom]
      rw [show mapFind [(c2.fromT.id, [c1.toT.id])] c2.fromT.id =
        some [c1.toT.id] by simp [mapFind]]
      simp [mapSet]
    rw [hout, hfrom]
    rfl

/-- Connections used by the C5 counterexample and witness. -/
def termA : Terminal :=
  { id := "A", label := "A", type := TerminalType.output, position := { x := 0, y := 0 } }

def termB : Terminal :=
  { id := "B", label := "B", type := TerminalType.input, position := { x := 1, y := 0 } }

def termC : Terminal :=
  { id := "C", label := "C", type := TerminalType.input, position := { x := 2, y := 0 } }

def connAB : WireConnection :=
  { id := "w1", fromT := termA, toT := termB, color := "#e74c3c" }

def connAC : WireConnection :=
  { id := "w2", fromT := termA, toT := termC, color := "#e74c3c" }

/-- Counterexample to C5 as stated: two identical connections (one
distinct target id for `"A"`) still produce a short-circuit warning — the
code tests the number of pushed targets, not the number of distinct
targets. -/
theorem shortCircuit_warning_cx :
    (validate [connAB, connAB] []).warnings = ["A"] ∧
    ∀ c ∈ [connAB, connAB], c.fromT.id = "A" ∧ c.toT.id = "B" := by
  constructor
  · rfl
  · decide

/-- Witness for C5 (amended): at the two-connection list sharing origin
`"A"` with distinct targets, the theorem instantiates to: `"A"` is warned
(it has two connections), warnings are duplicate-free, and the warning
list is exactly `["A"]`. -/
theorem shortCircuit_warnings_witness :
    ("A" ∈ (validate [connAB, connAC] []).warnings ↔
      2 ≤ List.countP (fun c => c.fromT.id == "A") [connAB, connAC]) ∧
    (validate [connAB, connAC] []).warnings.Nodup ∧
    (validate [connAB, connAC] []).warnings = ["A"] := by
  obtain ⟨h1, h2, h3⟩ := shortCircuit_warnings_spec [connAB, connAC] [] "A"
  exact ⟨h1, h2, h3 connAB connAC rfl (by decide)⟩

end School
